import Mathlib

/-!
Verification of the apartment real-trade analysis app (storage / normalizer /
analytics) against its natural-language specification.  The Python source is
shallowly embedded: dataframes become lists of records, SQLite storage becomes
an explicit list-of-rows state, Python floats become exact rationals, and
fallible conversions return `Option`.
-/

set_option maxHeartbeats 1000000
set_option maxRecDepth 10000

/-- ASCII whitespace test, modelling the characters Python `str.strip` removes
in this data (space, tab, newline, carriage return). -/
def isWS (c : Char) : Bool := c == ' ' || c == '\t' || c == '\n' || c == '\r'

/-- Strip leading and trailing whitespace from a character list. -/
def trimL (l : List Char) : List Char :=
  ((l.dropWhile isWS).reverse.dropWhile isWS).reverse

/-- Python `str.strip()`. -/
def pytrim (s : String) : String := ⟨trimL s.data⟩

/-- Python `str.replace(",", "")`: drop every comma. -/
def pyRemoveCommas (s : String) : String := ⟨s.data.filter (fun c => !(c == ','))⟩

/-- The character for a decimal digit value. -/
def digitChar (n : Nat) : Char := Char.ofNat (48 + n)

/-- Decimal digit characters of a natural number, most significant first.
The first argument is recursion fuel, always called with fuel at least the
number itself. -/
def natDigitsAux : Nat → Nat → List Char
  | 0, _ => []
  | fuel + 1, n => if n < 10 then [digitChar n] else natDigitsAux fuel (n / 10) ++ [digitChar (n % 10)]

/-- Decimal digit characters of a natural number. -/
def natDigits (n : Nat) : List Char := natDigitsAux (n + 1) n

/-- Decimal rendering of an integer: Python `str(int)`. -/
def decRepr (i : Int) : String :=
  if i < 0 then ⟨'-' :: natDigits i.natAbs⟩ else ⟨natDigits i.natAbs⟩

/-- Numeric value of a digit character. -/
def charDigit (c : Char) : Nat := c.toNat - 48

/-- Value of a most-significant-first digit list. -/
def ofDigits (l : List Char) : Nat := l.foldl (fun a c => 10 * a + charDigit c) 0

/-- Parse a nonempty all-digit character list as a natural number. -/
def parseNatL (l : List Char) : Option Nat :=
  if l.isEmpty then none
  else if l.all Char.isDigit then some (ofDigits l) else none

/-- Sign handling of `int(str)` on an already-stripped character list. -/
def parseIntL (l : List Char) : Option Int :=
  match l with
  | [] => none
  | c :: rest =>
    if c = '-' then (parseNatL rest).map (fun n => -(n : Int))
    else if c = '+' then (parseNatL rest).map (fun n => (n : Int))
    else (parseNatL (c :: rest)).map (fun n => (n : Int))

/-- Python `int(str)`: strip whitespace, optional sign, decimal digits;
anything else raises, modelled as `none`. -/
def parseInt (s : String) : Option Int := parseIntL (trimL s.data)

/-- Parse an unsigned decimal, optionally with a fractional part. -/
def parseUFrac (l : List Char) : Option ℚ :=
  let ip := l.takeWhile Char.isDigit
  let rest := l.dropWhile Char.isDigit
  match rest with
  | [] => if ip.isEmpty then none else some ((ofDigits ip : ℚ))
  | '.' :: frac =>
    if frac.all Char.isDigit && !(ip.isEmpty && frac.isEmpty) then
      some ((ofDigits ip : ℚ) + (ofDigits frac : ℚ) / (10 ^ frac.length))
    else none
  | _ => none

/-- Python `float(str)` on the decimal forms occurring in this data
(optionally signed digit strings with an optional fractional part). -/
def parseFloat (s : String) : Option ℚ :=
  match trimL s.data with
  | [] => none
  | c :: rest =>
    if c = '-' then (parseUFrac rest).map Neg.neg
    else if c = '+' then parseUFrac rest
    else parseUFrac (c :: rest)

/-- A loosely-typed value of a raw API record: string, integer or float
(floats modelled as exact rationals). -/
inductive RawVal where
  | vStr (s : String)
  | vInt (n : Int)
  | vFloat (q : ℚ)
deriving DecidableEq

/-- Python truthiness of a raw value. -/
def truthy : RawVal → Bool
  | .vStr s => !(s == "")
  | .vInt n => !(n == 0)
  | .vFloat q => !(q == 0)

/-- Python `a or b` over optional raw values (`none` models `None`). -/
def pyOr (a b : Option RawVal) : Option RawVal :=
  match a with
  | some v => if truthy v then some v else b
  | none => b

/-- A raw key/value record as delivered by the external API. -/
def RawItem := List (String × RawVal)

/-- Python `item.get(k)`. -/
def itemGet (item : RawItem) (k : String) : Option RawVal :=
  (item.find? (fun p => p.1 == k)).map (·.2)

/-- `item.get(k1) or item.get(k2) or ...` over an ordered alias list. -/
def chainGet (item : RawItem) : List String → Option RawVal
  | [] => none
  | [k] => itemGet item k
  | k :: rest => pyOr (itemGet item k) (chainGet item rest)

/-- `item.get(k1) or ... or default`. -/
def chainGetD (item : RawItem) (keys : List String) (d : RawVal) : RawVal :=
  match chainGet item keys with
  | some v => if truthy v then v else d
  | none => d

/-- Python `str(v)`.  For floats only the comma-free, non-integer-parseable
shape of the rendering is relied upon (the normalizer only ever feeds the
result to `int(...)`, which fails on any string containing a dot). -/
def strOfRaw : RawVal → String
  | .vStr s => s
  | .vInt n => decRepr n
  | .vFloat q => decRepr q.num ++ "." ++ decRepr (q.den : Int)

/-- Python `int(v)` on a raw value (floats truncate toward zero). -/
def toIntR : RawVal → Option Int
  | .vStr s => parseInt s
  | .vInt n => some n
  | .vFloat q => some (Int.tdiv q.num (q.den : Int))

/-- Python `float(v)` on a raw value. -/
def toFloatR : RawVal → Option ℚ
  | .vStr s => parseFloat s
  | .vInt n => some ((n : ℚ))
  | .vFloat q => some q

/-- A canonical transaction, the row schema of `trade_raw` minus
`created_at` (which the store adds at persistence time). -/
structure Trade where
  lawd_cd : String
  deal_ymd : Int
  deal_year : Int
  deal_month : Int
  deal_day : Int
  apt_seq : String
  apt_nm : String
  umd_nm : String
  jibun : Option RawVal
  exclu_use_ar : ℚ
  deal_amount : Int
  floor : Int
  build_year : Int
deriving DecidableEq

def yearKeys : List String := ["년", "dealYear", "DEAL_YEAR"]
def monthKeys : List String := ["월", "dealMonth", "DEAL_MONTH"]
def dayKeys : List String := ["일", "dealDay", "DEAL_DAY"]
def amountKeys : List String := ["거래금액", "dealAmount", "DEAL_AMOUNT"]
def aptSeqKeys : List String := ["일련번호", "aptSeq", "APT_SEQ"]
def aptNmKeys : List String := ["아파트", "aptNm", "APT_NM"]
def umdNmKeys : List String := ["법정동", "umdNm", "UMD_NM"]
def jibunKeys : List String := ["지번", "jibun"]
def areaKeys : List String := ["전용면적", "excluUseAr"]
def floorKeys : List String := ["층", "floor"]
def buildYearKeys : List String := ["건축년도", "buildYear"]

/-- Python `f"{m:02d}"`. -/
def fmt02 (m : Int) : String :=
  if 0 ≤ m ∧ m < 10 then "0" ++ decRepr m else decRepr m

/-- One iteration of `RTMSClient.process_items`: normalize a single raw
record, `none` when the record is skipped (missing date component, or any
coercion failure inside the `try` block). -/
def process_item (item : RawItem) (lawd : String) : Option Trade :=
  match chainGet item yearKeys, chainGet item monthKeys, chainGet item dayKeys with
  | some yv, some mv, some dv =>
    match toIntR yv, toIntR mv, toIntR dv,
        parseInt (pytrim (pyRemoveCommas (strOfRaw (chainGetD item amountKeys (.vStr "0"))))),
        toFloatR (chainGetD item areaKeys (.vInt 0)),
        toIntR (chainGetD item floorKeys (.vInt 0)),
        toIntR (chainGetD item buildYearKeys (.vInt 0)) with
    | some y, some m, some d, some amt, some ar, some fl, some by2 =>
      match parseInt (decRepr y ++ fmt02 m) with
      | some ymd =>
        some { lawd_cd := lawd, deal_ymd := ymd, deal_year := y, deal_month := m,
               deal_day := d,
               apt_seq := pytrim (strOfRaw (chainGetD item aptSeqKeys (.vStr "unknown"))),
               apt_nm := pytrim (strOfRaw (chainGetD item aptNmKeys (.vStr "unknown"))),
               umd_nm := pytrim (strOfRaw (chainGetD item umdNmKeys (.vStr ""))),
               jibun := chainGet item jibunKeys,
               exclu_use_ar := ar, deal_amount := amt, floor := fl, build_year := by2 }
      | none => none
    | _, _, _, _, _, _, _ => none
  | _, _, _ => none

/-- `RTMSClient.process_items`: best-effort normalization of a raw batch. -/
def process_items (items : List RawItem) (lawd : String) : List Trade :=
  items.filterMap (fun i => process_item i lawd)

/-- A persisted row of the `trade_raw` table: a canonical transaction plus
the `created_at` timestamp added by `save_trades`. -/
structure StoredRow where
  trade : Trade
  created_at : String
deriving DecidableEq

/-- The `UNIQUE(apt_seq, deal_year, deal_month, deal_day, exclu_use_ar,
floor, deal_amount)` constraint of `init_db`, as a key projection.  Note
that `lawd_cd` is not part of the constraint. -/
def dedupKey (t : Trade) : String × Int × Int × Int × ℚ × Int × Int :=
  (t.apt_seq, t.deal_year, t.deal_month, t.deal_day, t.exclu_use_ar, t.floor, t.deal_amount)

/-- `INSERT OR IGNORE` of one row: appended unless a stored row already
carries the same unique key. -/
def insertOrIgnore (store : List StoredRow) (r : StoredRow) : List StoredRow :=
  if store.any (fun s => decide (dedupKey s.trade = dedupKey r.trade)) then store
  else store ++ [r]

/-- `storage.save_trades`: stamp every incoming transaction with the current
timestamp and `INSERT OR IGNORE` them one by one (an empty batch is an
immediate no-op). -/
def save_trades (store : List StoredRow) (df : List Trade) (now : String) : List StoredRow :=
  (df.map (fun t => StoredRow.mk t now)).foldl insertOrIgnore store

/-- `storage.load_trades`: all stored rows of one region
(`SELECT * FROM trade_raw WHERE lawd_cd = ?`). -/
def load_trades (store : List StoredRow) (lawd : String) : List StoredRow :=
  store.filter (fun r => r.trade.lawd_cd == lawd)

/-- Modelled from the spec: `delete_region(region_code)` "removes all
transactions for a region".  `app.py` imports `delete_trades` from the
storage module, but `storage.py` under `src/` does not define it, so the
operation is embedded from the spec sentence
(`DELETE FROM trade_raw WHERE lawd_cd = ?`). -/
def delete_trades (store : List StoredRow) (lawd : String) : List StoredRow :=
  store.filter (fun r => !(r.trade.lawd_cd == lawd))

/-- A transaction enriched by `analytics.add_derived_columns`. -/
structure DRow where
  base : Trade
  pyeong : ℚ
  pyeong_price_won : ℚ
  pyeong_price_man : ℚ
  age : Int
  age_is_estimated : Bool
deriving DecidableEq

/-- `analytics.add_derived_columns` (the current year is an explicit
parameter standing for `datetime.now().year`). -/
def add_derived_columns (df : List Trade) (current_year : Int) : List DRow :=
  if df.isEmpty then []
  else df.map (fun t =>
    let py := t.exclu_use_ar / (330578 / 100000 : ℚ)
    { base := t, pyeong := py,
      pyeong_price_won := ((t.deal_amount : ℚ) * 10000) / py,
      pyeong_price_man := (t.deal_amount : ℚ) / py,
      age := current_year - t.build_year,
      age_is_estimated := true })

/-- `analytics.filter_size_band`: inclusive floor-area range filter. -/
def filter_size_band (df : List DRow) (mn mx : ℚ) : List DRow :=
  df.filter (fun r => decide (mn ≤ r.base.exclu_use_ar) && decide (r.base.exclu_use_ar ≤ mx))

/-- Insertion step of a stable insertion sort. -/
def insertByLe {α : Type} (le : α → α → Bool) (x : α) : List α → List α
  | [] => [x]
  | y :: t => if le x y then x :: y :: t else y :: insertByLe le x t

/-- Stable insertion sort (models the dataframe sorts; every ordering
property claimed of the app is insensitive to tie order). -/
def sortByLe {α : Type} (le : α → α → Bool) (l : List α) : List α :=
  l.foldr (insertByLe le) []

/-- Group keys in order of first occurrence (the subsequent pipeline stages
either sort explicitly or are insensitive to key order). -/
def firstKeys {α : Type} [DecidableEq α] (l : List α) : List α :=
  l.foldl (fun acc k => if k ∈ acc then acc else acc ++ [k]) []

/-- Sum of a list of rationals. -/
def sumQ : List ℚ → ℚ
  | [] => 0
  | y :: t => y + sumQ t

/-- Ascending sort of rationals. -/
def sortQ (l : List ℚ) : List ℚ := sortByLe (fun a b => decide (a ≤ b)) l

/-- Pandas median: middle element of the sorted values, or the mean of the
two middle elements (callers only apply it to nonempty groups). -/
def median (l : List ℚ) : ℚ :=
  let s := sortQ l
  let n := s.length
  if n % 2 == 1 then s.getD (n / 2) 0
  else (s.getD (n / 2 - 1) 0 + s.getD (n / 2) 0) / 2

/-- Maximum of a list of integers (groups are nonempty). -/
def maxInt : List Int → Int
  | [] => 0
  | x :: t => t.foldl max x

/-- Per-complex aggregate over all size bands (`total_stats`). -/
structure TAgg where
  apt_seq : String
  apt_nm : String
  build_year : Int
  cnt_total : Nat
deriving DecidableEq

/-- Per-complex aggregate inside the configured band (`band_stats`). -/
structure BAgg where
  apt_seq : String
  apt_nm : String
  cnt_band : Nat
  median_pyeong_price_man : ℚ
  median_pyeong : ℚ
  median_deal_amount_band : ℚ
deriving DecidableEq

/-- A joined leading-complex candidate row (`grouped`). -/
structure CAgg where
  apt_seq : String
  apt_nm : String
  build_year : Int
  cnt_total : Nat
  cnt_band : Nat
  median_pyeong_price_man : ℚ
  median_pyeong : ℚ
  median_deal_amount_band : ℚ
deriving DecidableEq

/-- The grouping key of the leading-complex pipeline. -/
def keyOfD (r : DRow) : String × String := (r.base.apt_seq, r.base.apt_nm)

/-- `total_stats`: per-complex most recent build year and total count. -/
def totalStats (df : List DRow) : List TAgg :=
  (firstKeys (df.map keyOfD)).map (fun k =>
    let rows := df.filter (fun r => decide (keyOfD r = k))
    { apt_seq := k.1, apt_nm := k.2,
      build_year := maxInt (rows.map (fun r => r.base.build_year)),
      cnt_total := rows.length })

/-- `band_stats`: per-complex in-band count and medians, plus the implied
median band deal amount. -/
def bandStats (dfBand : List DRow) : List BAgg :=
  (firstKeys (dfBand.map keyOfD)).map (fun k =>
    let rows := dfBand.filter (fun r => decide (keyOfD r = k))
    let mp := median (rows.map (fun r => r.pyeong_price_man))
    let mpy := median (rows.map (fun r => r.pyeong))
    { apt_seq := k.1, apt_nm := k.2, cnt_band := rows.length,
      median_pyeong_price_man := mp, median_pyeong := mpy,
      median_deal_amount_band := mpy * mp })

/-- Inner join of total and band aggregates on complex identity
(`pd.merge(..., how="inner")`; both sides have unique keys). -/
def lcMerged (dfRecent dfBand : List DRow) : List CAgg :=
  (totalStats dfRecent).filterMap (fun t =>
    ((bandStats dfBand).find? (fun b => b.apt_seq == t.apt_seq && b.apt_nm == t.apt_nm)).map
      (fun b =>
        { apt_seq := t.apt_seq, apt_nm := t.apt_nm, build_year := t.build_year,
          cnt_total := t.cnt_total, cnt_band := b.cnt_band,
          median_pyeong_price_man := b.median_pyeong_price_man,
          median_pyeong := b.median_pyeong,
          median_deal_amount_band := b.median_deal_amount_band }))

/-- The lookback filter, the band filter, the join and both count gates of
`compute_leading_complex` (everything before the emptiness check). -/
def lcFiltered (df : List DRow) (lookback_years n_total n_85 : Int) (mn mx : ℚ)
    (current_year : Int) : List CAgg :=
  let dfRecent := df.filter (fun r => decide (current_year - lookback_years ≤ r.base.deal_year))
  let dfBand := filter_size_band dfRecent mn mx
  (lcMerged dfRecent dfBand).filter
    (fun g => decide (n_total ≤ (g.cnt_total : Int)) && decide (n_85 ≤ (g.cnt_band : Int)))

/-- Result dictionary of `compute_leading_complex`. -/
structure LCResult where
  top1 : Option CAgg
  top5 : Option (List CAgg)
  params : Int × Int × Int × ℚ × ℚ
  notes : String
deriving DecidableEq

/-- `analytics.compute_leading_complex`. -/
def compute_leading_complex (df : List DRow) (lookback_years n_total n_85 : Int)
    (mn mx : ℚ) (current_year : Int) : LCResult :=
  if df.isEmpty then
    ⟨none, none, (lookback_years, n_total, n_85, mn, mx), "데이터가 없습니다."⟩
  else
    let filtered := lcFiltered df lookback_years n_total n_85 mn mx current_year
    if filtered.isEmpty then
      ⟨none, none, (lookback_years, n_total, n_85, mn, mx), "조건을 만족하는 단지가 없습니다."⟩
    else
      let sorted := sortByLe
        (fun a b => decide (b.median_pyeong_price_man ≤ a.median_pyeong_price_man)) filtered
      ⟨sorted.head?, some (sorted.take 5), (lookback_years, n_total, n_85, mn, mx),
        "거래빈도는 단지 규모 대리변수이므로 결과에 확실하지 않음 문구 포함"⟩

/-- A monthly aggregate row of the trend analysis. -/
structure MRow where
  deal_ymd : Int
  median_price : ℚ
  volume : Nat
deriving DecidableEq

/-- Monthly aggregation of `compute_trend`: group by `deal_ymd`, median
price-per-pyeong and count per month, sorted chronologically. -/
def monthlyAgg (df : List DRow) : List MRow :=
  let keys := firstKeys (df.map (fun r => r.base.deal_ymd))
  let rows := keys.map (fun ymd =>
    let g := df.filter (fun r => decide (r.base.deal_ymd = ymd))
    { deal_ymd := ymd, median_price := median (g.map (fun r => r.pyeong_price_man)),
      volume := g.length })
  sortByLe (fun a b => decide (a.deal_ymd ≤ b.deal_ymd)) rows

/-- The last `n` elements of a list (`DataFrame.tail(n)`). -/
def lastN {α : Type} (n : Nat) (l : List α) : List α := l.drop (l.length - n)

/-- Weighted sum `k*y0 + (k+1)*y1 + ...` used for the x·y moment of the
regression (x is the index sequence starting at `k`). -/
def wsum : ℚ → List ℚ → ℚ
  | _, [] => 0
  | k, y :: t => k * y + wsum (k + 1) t

/-- `0 + 1 + ... + (n-1)` as a rational. -/
def sumIdx : Nat → ℚ
  | 0 => 0
  | n + 1 => sumIdx n + n

/-- `0² + 1² + ... + (n-1)²` as a rational. -/
def sumIdxSq : Nat → ℚ
  | 0 => 0
  | n + 1 => sumIdxSq n + (n : ℚ) ^ 2

/-- Degree-1 `np.polyfit` slope over x = 0..n-1, embedded through the
normal-equations (centred moments) solution the least-squares fit computes. -/
def polyfitSlope (ys : List ℚ) : ℚ :=
  let n : ℚ := ys.length
  let xbar := sumIdx ys.length / n
  let ybar := sumQ ys / n
  (wsum 0 ys - n * xbar * ybar) / (sumIdxSq ys.length - n * xbar ^ 2)

/-- The ordinary-least-squares slope exactly as the spec words it
(x-axis 0..n-1, y-axis the series), in the classical closed form
`(n·Σxy − Σx·Σy) / (n·Σx² − (Σx)²)`; comparison definition for the
refinement claim about the long-trend slope. -/
def olsSlopeSpec (ys : List ℚ) : ℚ :=
  let n : ℚ := ys.length
  (n * wsum 0 ys - sumIdx ys.length * sumQ ys) /
    (n * sumIdxSq ys.length - (sumIdx ys.length) ^ 2)

/-- Python `round(x)` at integer precision with ties to even. -/
def roundHalfEven (q : ℚ) : ℤ :=
  let f := ⌊q⌋
  let r := q - f
  if r < 1 / 2 then f
  else if 1 / 2 < r then f + 1
  else if f % 2 = 0 then f else f + 1

/-- Python `round(x, 2)` (on exact rationals). -/
def round2 (q : ℚ) : ℚ := (roundHalfEven (q * 100) : ℚ) / 100

/-- Result dictionary of `compute_trend`. -/
structure TrendResult where
  monthly : Option (List MRow)
  short_momentum_pct : ℚ
  long_slope : ℚ
  long_trend_label : String
  notes : String
deriving DecidableEq

/-- `analytics.compute_trend`. -/
def compute_trend (df : List DRow) : TrendResult :=
  if df.isEmpty then ⟨none, 0, 0, "데이터 부족", ""⟩
  else
    let monthly := monthlyAgg df
    if monthly.length < 2 then
      ⟨some monthly, 0, 0, "데이터 부족", "분석을 위한 데이터가 부족합니다."⟩
    else
      let recent2 := lastN 2 monthly
      let last := (recent2.getLast?.map (fun r => r.median_price)).getD 0
      let prev := (recent2.head?.map (fun r => r.median_price)).getD 0
      let short := (last / prev - 1) * 100
      let last36 := lastN 36 monthly
      if 12 ≤ last36.length then
        let slope := polyfitSlope (last36.map (fun r => r.median_price))
        ⟨some monthly, round2 short, round2 slope,
          if 0 < slope then "상승" else "하락",
          "장기 추세는 최근 36개월 선형회귀 slope 기반입니다."⟩
      else
        ⟨some monthly, round2 short, 0, "데이터 부족",
          "장기 추세는 최근 36개월 선형회귀 slope 기반입니다."⟩

/-- `get_age_group` inside `compute_age_group_levels`. -/
def get_age_group (age : Int) : String :=
  if age ≤ 5 then "신축(5년이내)"
  else if age ≤ 10 then "준신축(5~10년)"
  else "구축(10년이상)"

/-- The fixed ordered age categories. -/
def ageOrder : List String := ["신축(5년이내)", "준신축(5~10년)", "구축(10년이상)"]

/-- A summary row of `compute_age_group_levels`. -/
structure AgeSummary where
  age_group : String
  median_pyeong_price_man : ℚ
  mean_pyeong_price_man : ℚ
  median_deal_amount : ℚ
  cnt : Nat
  is_uncertain : Bool
deriving DecidableEq

/-- `analytics.compute_age_group_levels`: bucket by ordered age category
(`groupby(..., observed=True)` emits only nonempty categories, in category
order), aggregate, and flag small samples. -/
def compute_age_group_levels (df : List DRow) (min_samples : Nat) : List AgeSummary :=
  if df.isEmpty then []
  else ageOrder.filterMap (fun g =>
    let rows := df.filter (fun r => get_age_group r.age == g)
    if rows.isEmpty then none
    else some
      { age_group := g,
        median_pyeong_price_man := median (rows.map (fun r => r.pyeong_price_man)),
        mean_pyeong_price_man := sumQ (rows.map (fun r => r.pyeong_price_man)) / rows.length,
        median_deal_amount := median (rows.map (fun r => (r.base.deal_amount : ℚ))),
        cnt := rows.length,
        is_uncertain := decide (rows.length < min_samples) })

/-- The claim's reading of alias resolution, for the refinement comparison:
the first alias that is present in the record wins, whatever its value. -/
def firstPresent (item : RawItem) : List String → Option RawVal
  | [] => none
  | k :: rest =>
    match itemGet item k with
    | some v => some v
    | none => firstPresent item rest

/-- `firstPresent` with the normalizer's default. -/
def firstPresentD (item : RawItem) (keys : List String) (d : RawVal) : RawVal :=
  (firstPresent item keys).getD d

/-- The normalizer as the claim describes it (identical to `process_item`
except that every alias list is resolved by first-present-wins instead of
Python `or`); comparison definition for the alias-resolution claim. -/
def process_item_claim (item : RawItem) (lawd : String) : Option Trade :=
  match firstPresent item yearKeys, firstPresent item monthKeys, firstPresent item dayKeys with
  | some yv, some mv, some dv =>
    match toIntR yv, toIntR mv, toIntR dv,
        parseInt (pytrim (pyRemoveCommas (strOfRaw (firstPresentD item amountKeys (.vStr "0"))))),
        toFloatR (firstPresentD item areaKeys (.vInt 0)),
        toIntR (firstPresentD item floorKeys (.vInt 0)),
        toIntR (firstPresentD item buildYearKeys (.vInt 0)) with
    | some y, some m, some d, some amt, some ar, some fl, some by2 =>
      match parseInt (decRepr y ++ fmt02 m) with
      | some ymd =>
        some { lawd_cd := lawd, deal_ymd := ymd, deal_year := y, deal_month := m,
               deal_day := d,
               apt_seq := pytrim (strOfRaw (firstPresentD item aptSeqKeys (.vStr "unknown"))),
               apt_nm := pytrim (strOfRaw (firstPresentD item aptNmKeys (.vStr "unknown"))),
               umd_nm := pytrim (strOfRaw (firstPresentD item umdNmKeys (.vStr ""))),
               jibun := firstPresent item jibunKeys,
               exclu_use_ar := ar, deal_amount := amt, floor := fl, build_year := by2 }
      | none => none
    | _, _, _, _, _, _, _ => none
  | _, _, _ => none

/-- The first alias whose value is present and truthy. -/
def firstTruthy (item : RawItem) (keys : List String) : Option RawVal :=
  keys.findSome? (fun k => (itemGet item k).bind (fun v => if truthy v then some v else none))

/-- Modelled from the spec: re-serialization of a canonical transaction as a
raw key/value record.  The spec's idempotence property speaks of the
"normalized-and-reserialized form", but the repository contains no
serializer, so the canonical fields are emitted under the camel-case alias
names that the normalizer itself accepts. -/
def reserialize (t : Trade) : RawItem :=
  match t.jibun with
  | some v =>
    [("dealYear", .vInt t.deal_year), ("dealMonth", .vInt t.deal_month),
     ("dealDay", .vInt t.deal_day), ("dealAmount", .vInt t.deal_amount),
     ("aptSeq", .vStr t.apt_seq), ("aptNm", .vStr t.apt_nm), ("umdNm", .vStr t.umd_nm),
     ("jibun", v), ("excluUseAr", .vFloat t.exclu_use_ar), ("floor", .vInt t.floor),
     ("buildYear", .vInt t.build_year)]
  | none =>
    [("dealYear", .vInt t.deal_year), ("dealMonth", .vInt t.deal_month),
     ("dealDay", .vInt t.deal_day), ("dealAmount", .vInt t.deal_amount),
     ("aptSeq", .vStr t.apt_seq), ("aptNm", .vStr t.apt_nm), ("umdNm", .vStr t.umd_nm),
     ("excluUseAr", .vFloat t.exclu_use_ar), ("floor", .vInt t.floor),
     ("buildYear", .vInt t.build_year)]

/-- Concrete transaction used in witnesses and counterexamples. -/
def trA : Trade :=
  { lawd_cd := "11110", deal_ymd := 202401, deal_year := 2024, deal_month := 1,
    deal_day := 15, apt_seq := "1111-01", apt_nm := "한강아파트", umd_nm := "",
    jibun := none, exclu_use_ar := 84, deal_amount := 90000, floor := 10,
    build_year := 2015 }

/-- Same dedup tuple as `trA`, different region code. -/
def trB : Trade := { trA with lawd_cd := "26350" }

/-- Derived-row builder for analytics witnesses. -/
def wD (seq : String) (yr ymd : Int) (ar ppm : ℚ) : DRow :=
  { base := { lawd_cd := "11110", deal_ymd := ymd, deal_year := yr, deal_month := 1,
              deal_day := 1, apt_seq := seq, apt_nm := seq, umd_nm := "", jibun := none,
              exclu_use_ar := ar, deal_amount := 100, floor := 1, build_year := 2015 },
    pyeong := ar, pyeong_price_won := ppm * 10000, pyeong_price_man := ppm,
    age := 5, age_is_estimated := true }

/-- A one-complex, two-transaction analytics input. -/
def dfW : List DRow := [wD "A" 2024 202401 84 10, wD "A" 2024 202402 84 12]

/-- A 36-month input with strictly increasing monthly medians. -/
def df36 : List DRow :=
  (List.range 36).map (fun i => wD "A" 2024 ((i : Int) + 202000) 84 ((i : ℚ) + 1))

/-- Raw record whose first `floor` alias is present but empty while the
second alias parses. -/
def item4 : RawItem :=
  [("층", .vStr ""), ("floor", .vStr "7"),
   ("년", .vStr "2020"), ("월", .vStr "1"), ("일", .vStr "2")]

/-- The row the normalizer admits for `item4`. -/
def t4 : Trade :=
  { lawd_cd := "11110", deal_ymd := 202001, deal_year := 2020, deal_month := 1,
    deal_day := 2, apt_seq := "unknown", apt_nm := "unknown", umd_nm := "",
    jibun := none, exclu_use_ar := 0, deal_amount := 0, floor := 7, build_year := 0 }

/-- Raw record carrying only the three date components. -/
def item9 : RawItem := [("년", .vStr "2020"), ("월", .vStr "1"), ("일", .vStr "2")]

/-- A fully populated valid raw record. -/
def item6 : RawItem :=
  [("dealYear", .vStr "2020"), ("dealMonth", .vStr "7"), ("dealDay", .vStr "15"),
   ("dealAmount", .vStr "1,200"), ("aptSeq", .vStr " 1111-01 "), ("aptNm", .vStr "한강아파트"),
   ("umdNm", .vStr "역삼동"), ("jibun", .vStr "12-3"), ("excluUseAr", .vStr "84"),
   ("floor", .vStr "3"), ("buildYear", .vStr "2001")]

/-- The canonical form of `item6`. -/
def t6 : Trade :=
  { lawd_cd := "11110", deal_ymd := 202007, deal_year := 2020, deal_month := 7,
    deal_day := 15, apt_seq := "1111-01", apt_nm := "한강아파트", umd_nm := "역삼동",
    jibun := some (.vStr "12-3"), exclu_use_ar := 84, deal_amount := 1200,
    floor := 3, build_year := 2001 }

/-- Nonnegativity of the float interpretation of a raw value (vacuously
true when the coercion fails). -/
def rawNonneg (v : RawVal) : Bool :=
  match toFloatR v with
  | some q => decide (0 ≤ q)
  | none => true

/-- Raw record whose year alias is present but unparseable. -/
def itemBadYear : RawItem := [("년", .vStr "abc"), ("월", .vStr "1"), ("일", .vStr "2")]

/-- A two-region store used by witnesses. -/
def st7 : List StoredRow := [⟨trA, "2024-02-01 00:00:00"⟩, ⟨trB, "2024-02-01 00:00:01"⟩]

/-- The leading-complex row produced for `dfW`. -/
def lW : List CAgg :=
  [{ apt_seq := "A", apt_nm := "A", build_year := 2015, cnt_total := 2, cnt_band := 2,
     median_pyeong_price_man := 11, median_pyeong := 84, median_deal_amount_band := 924 }]

theorem save_trades_cons (store : List StoredRow) (t : Trade) (df : List Trade)
    (now : String) :
    save_trades store (t :: df) now = save_trades (insertOrIgnore store ⟨t, now⟩) df now := rfl

theorem insertOrIgnore_any_mono (p : StoredRow → Bool) (s : List StoredRow) (r : StoredRow)
    (h : s.any p = true) : (insertOrIgnore s r).any p = true := by
  unfold insertOrIgnore
  split
  · exact h
  · simp only [List.any_append, h, Bool.true_or]

theorem save_trades_any_mono (p : StoredRow → Bool) (df : List Trade) (s : List StoredRow)
    (now : String) (h : s.any p = true) : (save_trades s df now).any p = true := by
  induction df generalizing s with
  | nil => exact h
  | cons t df ih =>
    rw [save_trades_cons]
    exact ih _ (insertOrIgnore_any_mono p s _ h)

theorem insertOrIgnore_key_present (s : List StoredRow) (r : StoredRow) :
    (insertOrIgnore s r).any (fun x => decide (dedupKey x.trade = dedupKey r.trade)) = true := by
  unfold insertOrIgnore
  split
  · assumption
  · simp

theorem insertOrIgnore_of_present (s : List StoredRow) (r : StoredRow)
    (h : s.any (fun x => decide (dedupKey x.trade = dedupKey r.trade)) = true) :
    insertOrIgnore s r = s := by
  unfold insertOrIgnore
  simp only [h, if_true]

theorem save_trades_keys_present (df : List Trade) (s : List StoredRow) (now : String) :
    ∀ t ∈ df, (save_trades s df now).any
      (fun x => decide (dedupKey x.trade = dedupKey t)) = true := by
  induction df generalizing s with
  | nil => intro t ht; cases ht
  | cons u df ih =>
    intro t ht
    rw [save_trades_cons]
    rcases List.mem_cons.mp ht with h | h
    · subst h
      exact save_trades_any_mono _ df _ now (insertOrIgnore_key_present s ⟨t, now⟩)
    · exact ih _ t h

theorem save_trades_noop (df : List Trade) (s : List StoredRow) (now : String)
    (h : ∀ t ∈ df, s.any (fun x => decide (dedupKey x.trade = dedupKey t)) = true) :
    save_trades s df now = s := by
  induction df generalizing s with
  | nil => rfl
  | cons t df ih =>
    rw [save_trades_cons, insertOrIgnore_of_present s ⟨t, now⟩ (h t (List.mem_cons_self t df))]
    exact ih s (fun u hu => h u (List.mem_cons_of_mem t hu))

/-- C2.  Upsert is idempotent: re-saving a transaction set that was just
saved changes the store not at all (in particular the stored row count
changes by zero), and `INSERT OR IGNORE` never raises on the duplicate-key
conflicts — `save_trades` is a total function that silently skips them. -/
theorem upsert_idempotent (store : List StoredRow) (df : List Trade) (now1 now2 : String) :
    save_trades (save_trades store df now1) df now2 = save_trades store df now1 :=
  save_trades_noop df _ now2 (save_trades_keys_present df store now1)

/-- C1 counterexample.  Two transactions that agree on the whole dedup tuple
(`apt_seq`, dates, area, floor, amount) but carry different region codes are
NOT both stored: the unique constraint of `init_db` omits `lawd_cd`, so the
second upsert is ignored and the store holds a single row. -/
theorem region_dedup_counterexample :
    dedupKey trA = dedupKey trB ∧ trA.lawd_cd ≠ trB.lawd_cd ∧
    save_trades [] [trA, trB] "2024-02-01 00:00:00" = [⟨trA, "2024-02-01 00:00:00"⟩] := by
  decide

/-- C1 amended.  Deduplication is global across regions: whenever two
transactions agree on the dedup tuple — their region codes may differ —
upserting both stores only the first; re-ingesting an identical tuple from
any region is a no-op. -/
theorem dedup_ignores_region (store : List StoredRow) (t1 t2 : Trade) (now : String)
    (h : dedupKey t1 = dedupKey t2) :
    save_trades store [t1, t2] now = save_trades store [t1] now := by
  show save_trades (insertOrIgnore store ⟨t1, now⟩) [t2] now = insertOrIgnore store ⟨t1, now⟩
  have hp := insertOrIgnore_key_present store ⟨t1, now⟩
  rw [show (⟨t1, now⟩ : StoredRow).trade = t1 from rfl, h] at hp
  exact insertOrIgnore_of_present _ ⟨t2, now⟩ hp

theorem dedup_ignores_region_witness :
    save_trades [] [trA, trB] "2024-02-01 00:00:00" = save_trades [] [trA] "2024-02-01 00:00:00" :=
  dedup_ignores_region [] trA trB "2024-02-01 00:00:00" (by decide)

/-- C7.  `delete_region` (modelled from the spec as `delete_trades`) empties
exactly the targeted region: afterwards the region loads no rows, while
every other region loads exactly what it loaded before. -/
theorem delete_region_frame (store : List StoredRow) (code : String) :
    load_trades (delete_trades store code) code = [] ∧
    ∀ other, other ≠ code →
      load_trades (delete_trades store code) other = load_trades store other := by
  constructor
  · induction store with
    | nil => rfl
    | cons r rest ih =>
      by_cases h : r.trade.lawd_cd = code <;>
        simp [delete_trades, load_trades, List.filter_cons, h] at ih ⊢
  · intro other hne
    induction store with
    | nil => rfl
    | cons r rest ih =>
      have hne2 : ¬(code = other) := Ne.symm hne
      by_cases h : r.trade.lawd_cd = code
      · have h2 : ¬(r.trade.lawd_cd = other) := by rw [h]; exact Ne.symm hne
        simp [delete_trades, load_trades, List.filter_cons, h, h2, hne, hne2] at ih ⊢
        exact ih
      · by_cases h3 : r.trade.lawd_cd = other <;>
          simp [delete_trades, load_trades, List.filter_cons, h, h3, hne, hne2] at ih ⊢ <;>
          simp [ih]

theorem delete_region_frame_witness :
    load_trades (delete_trades st7 "11110") "11110" = [] ∧
    load_trades (delete_trades st7 "11110") "26350" = load_trades st7 "26350" :=
  ⟨(delete_region_frame st7 "11110").1,
   (delete_region_frame st7 "11110").2 "26350" (by decide)⟩

/-- C10.  On nonempty input, the derived view keeps every transaction
(bases unchanged, in order) and equips each row with
`pyeong = floor_area_m2 / 3.30578`, the unit price per pyeong in the
smaller currency unit (`price_10k_won * 10000 / pyeong`, alongside the
10k-unit variant), `age = current_year - build_year` flagged as an
estimate, and an age whose categorisation falls in the three ordered
age-group categories. -/
theorem derived_columns_formulas :
    ∀ (df : List Trade) (cy : Int), df ≠ [] →
      (add_derived_columns df cy).map DRow.base = df ∧
      ∀ r ∈ add_derived_columns df cy,
        r.pyeong = r.base.exclu_use_ar / (330578 / 100000 : ℚ) ∧
        r.pyeong_price_won = ((r.base.deal_amount : ℚ) * 10000) / r.pyeong ∧
        r.pyeong_price_man = (r.base.deal_amount : ℚ) / r.pyeong ∧
        r.age = cy - r.base.build_year ∧
        r.age_is_estimated = true ∧
        get_age_group r.age ∈ ageOrder := by
  intro df cy hne
  have hemp : df.isEmpty = false := by
    cases df with
    | nil => exact absurd rfl hne
    | cons a l => rfl
  constructor
  · rw [add_derived_columns, hemp]
    simp only [Bool.false_eq_true, if_false, List.map_map]
    exact List.map_id df
  · intro r hr
    rw [add_derived_columns, hemp] at hr
    simp only [Bool.false_eq_true, if_false] at hr
    obtain ⟨t, ht, rfl⟩ := List.mem_map.mp hr
    refine ⟨rfl, rfl, rfl, rfl, rfl, ?_⟩
    unfold get_age_group
    split_ifs <;> simp [ageOrder]

theorem derived_columns_formulas_witness :
    (add_derived_columns [trA] 2025).map DRow.base = [trA] ∧
    ∀ r ∈ add_derived_columns [trA] 2025,
      r.pyeong = r.base.exclu_use_ar / (330578 / 100000 : ℚ) ∧
      r.pyeong_price_won = ((r.base.deal_amount : ℚ) * 10000) / r.pyeong ∧
      r.pyeong_price_man = (r.base.deal_amount : ℚ) / r.pyeong ∧
      r.age = 2025 - r.base.build_year ∧
      r.age_is_estimated = true ∧
      get_age_group r.age ∈ ageOrder :=
  derived_columns_formulas [trA] 2025 (by decide)

/-- C8.  No analytics-core operation raises for business-logic reasons: all
five operations are total functions of the embedding, empty input yields a
valid "no data" result (empty list or sentinel-bearing structure), and a
nonempty input on which no complex survives both count gates yields the
explicit "no qualifying complex" result. -/
theorem analytics_no_raise :
    (∀ cy, add_derived_columns [] cy = []) ∧
    (∀ mn mx : ℚ, filter_size_band [] mn mx = []) ∧
    (∀ ly nt n85 mn mx cy,
      (compute_leading_complex [] ly nt n85 mn mx cy).top1 = none ∧
      (compute_leading_complex [] ly nt n85 mn mx cy).top5 = none ∧
      (compute_leading_complex [] ly nt n85 mn mx cy).notes = "데이터가 없습니다.") ∧
    (compute_trend [] = ⟨none, 0, 0, "데이터 부족", ""⟩) ∧
    (∀ ms, compute_age_group_levels [] ms = []) ∧
    (∀ df ly nt n85 mn mx cy, df ≠ [] → lcFiltered df ly nt n85 mn mx cy = [] →
      (compute_leading_complex df ly nt n85 mn mx cy).top1 = none ∧
      (compute_leading_complex df ly nt n85 mn mx cy).top5 = none ∧
      (compute_leading_complex df ly nt n85 mn mx cy).notes = "조건을 만족하는 단지가 없습니다.") := by
  refine ⟨fun cy => rfl, fun mn mx => rfl, fun ly nt n85 mn mx cy => ⟨rfl, rfl, rfl⟩,
    rfl, fun ms => rfl, ?_⟩
  intro df ly nt n85 mn mx cy hne hfil
  have hemp : df.isEmpty = false := by
    cases df with
    | nil => exact absurd rfl hne
    | cons a l => rfl
  refine ⟨?_, ?_, ?_⟩ <;> simp [compute_leading_complex, hemp, hfil]

theorem analytics_no_raise_witness :
    add_derived_columns [] 2024 = [] ∧
    filter_size_band [] 80 90 = [] ∧
    (compute_leading_complex [] 5 10 5 80 90 2024).notes = "데이터가 없습니다." ∧
    compute_trend [] = ⟨none, 0, 0, "데이터 부족", ""⟩ ∧
    compute_age_group_levels [] 10 = [] ∧
    (compute_leading_complex dfW 5 99 99 80 90 2024).notes = "조건을 만족하는 단지가 없습니다." :=
  ⟨analytics_no_raise.1 2024, analytics_no_raise.2.1 80 90,
   (analytics_no_raise.2.2.1 5 10 5 80 90 2024).2.2, analytics_no_raise.2.2.2.1,
   analytics_no_raise.2.2.2.2.1 10,
   (analytics_no_raise.2.2.2.2.2 dfW 5 99 99 80 90 2024 (by decide) (by decide)).2.2⟩

theorem mem_insertByLe {α : Type} (le : α → α → Bool) (x a : α) (l : List α) :
    a ∈ insertByLe le x l ↔ a = x ∨ a ∈ l := by
  induction l with
  | nil => simp [insertByLe]
  | cons y t ih =>
    cases hle : le x y with
    | true => simp [insertByLe, hle, List.mem_cons]
    | false =>
      simp only [insertByLe, hle, Bool.false_eq_true, if_false, List.mem_cons, ih]
      tauto

theorem mem_sortByLe {α : Type} (le : α → α → Bool) (a : α) (l : List α) :
    a ∈ sortByLe le l ↔ a ∈ l := by
  induction l with
  | nil => simp [sortByLe]
  | cons y t ih =>
    show a ∈ insertByLe le y (sortByLe le t) ↔ _
    rw [mem_insertByLe, ih, List.mem_cons]

theorem pairwise_insertByLe {α : Type} (R : α → α → Prop) (le : α → α → Bool)
    (h1 : ∀ a b, le a b = true → R a b) (h2 : ∀ a b, le a b = false → R b a)
    (htr : ∀ a b c, R a b → R b c → R a c) (x : α) (l : List α)
    (hp : l.Pairwise R) : (insertByLe le x l).Pairwise R := by
  induction l with
  | nil => simp [insertByLe]
  | cons y t ih =>
    rcases List.pairwise_cons.mp hp with ⟨hy, ht⟩
    cases hle : le x y with
    | true =>
      simp only [insertByLe, hle, if_true]
      refine List.pairwise_cons.mpr ⟨?_, hp⟩
      intro z hz
      rcases List.mem_cons.mp hz with rfl | hz
      · exact h1 _ _ hle
      · exact htr _ _ _ (h1 _ _ hle) (hy z hz)
    | false =>
      simp only [insertByLe, hle, Bool.false_eq_true, if_false]
      refine List.pairwise_cons.mpr ⟨?_, ih ht⟩
      intro z hz
      rcases (mem_insertByLe le x z t).mp hz with rfl | hz
      · exact h2 _ _ hle
      · exact hy z hz

theorem pairwise_sortByLe {α : Type} (R : α → α → Prop) (le : α → α → Bool)
    (h1 : ∀ a b, le a b = true → R a b) (h2 : ∀ a b, le a b = false → R b a)
    (htr : ∀ a b c, R a b → R b c → R a c) (l : List α) :
    (sortByLe le l).Pairwise R := by
  induction l with
  | nil => simp [sortByLe]
  | cons y t ih => exact pairwise_insertByLe R le h1 h2 htr y _ ih

theorem mem_foldl_firstKeys {α : Type} [DecidableEq α] (l : List α) :
    ∀ (acc : List α) (x : α),
      x ∈ l.foldl (fun acc k => if k ∈ acc then acc else acc ++ [k]) acc →
      x ∈ acc ∨ x ∈ l := by
  induction l with
  | nil => intro acc x h; exact Or.inl h
  | cons k t ih =>
    intro acc x h
    rcases ih _ x h with h2 | h2
    · by_cases hk : k ∈ acc
      · simp only [if_pos hk] at h2; exact Or.inl h2
      · simp only [if_neg hk] at h2
        rcases List.mem_append.mp h2 with h3 | h3
        · exact Or.inl h3
        · simp only [List.mem_singleton] at h3
          exact Or.inr (h3 ▸ List.mem_cons_self k t)
    · exact Or.inr (List.mem_cons_of_mem k h2)

theorem mem_firstKeys {α : Type} [DecidableEq α] (l : List α) (x : α)
    (h : x ∈ firstKeys l) : x ∈ l := by
  rcases mem_foldl_firstKeys l [] x h with h2 | h2
  · cases h2
  · exact h2

theorem bandStats_key_mem (dfb : List DRow) (b : BAgg) (hb : b ∈ bandStats dfb) :
    ∃ x ∈ dfb, x.base.apt_seq = b.apt_seq ∧ x.base.apt_nm = b.apt_nm := by
  obtain ⟨k, hk, rfl⟩ := List.mem_map.mp hb
  have hk2 : k ∈ dfb.map keyOfD := mem_firstKeys _ _ hk
  obtain ⟨x, hx, hxk⟩ := List.mem_map.mp hk2
  exact ⟨x, hx, congrArg Prod.fst hxk, congrArg Prod.snd hxk⟩

theorem lcMerged_mem (dfr dfb : List DRow) (r : CAgg) (hr : r ∈ lcMerged dfr dfb) :
    ∃ x ∈ dfb, x.base.apt_seq = r.apt_seq ∧ x.base.apt_nm = r.apt_nm := by
  obtain ⟨t, ht, hsome⟩ := List.mem_filterMap.mp hr
  rcases hfind : (bandStats dfb).find?
      (fun b => b.apt_seq == t.apt_seq && b.apt_nm == t.apt_nm) with _ | b
  · rw [hfind] at hsome; cases hsome
  · rw [hfind] at hsome
    have hcomb := Option.some.inj hsome
    have hbmem := List.mem_of_find?_eq_some hfind
    have hpred := List.find?_some hfind
    rw [Bool.and_eq_true, beq_iff_eq, beq_iff_eq] at hpred
    obtain ⟨x, hx, h1, h2⟩ := bandStats_key_mem dfb b hbmem
    refine ⟨x, hx, ?_, ?_⟩
    · rw [← hcomb]; exact h1.trans hpred.1
    · rw [← hcomb]; exact h2.trans hpred.2

/-- C3.  Whenever the leading-complex ranker outputs a top-5 list, every
row passes both count gates simultaneously, the list is sorted descending
by in-band median price-per-pyeong, and every listed complex has at least
one transaction inside the configured size band of the lookback window
(the join of the two aggregates is inner). -/
theorem leading_complex_correct :
    ∀ (df : List DRow) (ly nt n85 : Int) (mn mx : ℚ) (cy : Int) (l : List CAgg),
      (compute_leading_complex df ly nt n85 mn mx cy).top5 = some l →
      (∀ r ∈ l, nt ≤ (r.cnt_total : Int) ∧ n85 ≤ (r.cnt_band : Int)) ∧
      l.Pairwise (fun a b => b.median_pyeong_price_man ≤ a.median_pyeong_price_man) ∧
      (∀ r ∈ l, ∃ x ∈ filter_size_band
          (df.filter (fun rr => decide (cy - ly ≤ rr.base.deal_year))) mn mx,
        x.base.apt_seq = r.apt_seq ∧ x.base.apt_nm = r.apt_nm) := by
  intro df ly nt n85 mn mx cy l htop
  by_cases hde : df.isEmpty
  · simp [compute_leading_complex, hde] at htop
  · by_cases hfe : (lcFiltered df ly nt n85 mn mx cy).isEmpty
    · simp [compute_leading_complex, hde, hfe] at htop
    · simp only [compute_leading_complex, hde, hfe, Bool.false_eq_true, if_false] at htop
      obtain rfl := (Option.some.inj htop).symm
      have hmemfil : ∀ r, r ∈ (sortByLe
          (fun a b => decide (b.median_pyeong_price_man ≤ a.median_pyeong_price_man))
          (lcFiltered df ly nt n85 mn mx cy)).take 5 →
          r ∈ lcFiltered df ly nt n85 mn mx cy := by
        intro r hr
        exact (mem_sortByLe _ r _).mp (List.mem_of_mem_take hr)
      refine ⟨?_, ?_, ?_⟩
      · intro r hr
        have hf := hmemfil r hr
        simp only [lcFiltered] at hf
        have := (List.mem_filter.mp hf).2
        rw [Bool.and_eq_true, decide_eq_true_eq, decide_eq_true_eq] at this
        exact this
      · refine List.Pairwise.sublist (List.take_sublist 5 _) ?_
        refine pairwise_sortByLe _ _ ?_ ?_ ?_ _
        · intro a b h; exact of_decide_eq_true h
        · intro a b h; exact le_of_not_le (of_decide_eq_false h)
        · intro a b c hab hbc; exact le_trans hbc hab
      · intro r hr
        have hf := hmemfil r hr
        simp only [lcFiltered] at hf
        have hm := (List.mem_filter.mp hf).1
        exact lcMerged_mem _ _ r hm

theorem leading_complex_correct_witness :
    (∀ r ∈ lW, (1 : Int) ≤ (r.cnt_total : Int) ∧ (1 : Int) ≤ (r.cnt_band : Int)) ∧
    lW.Pairwise (fun a b => b.median_pyeong_price_man ≤ a.median_pyeong_price_man) ∧
    (∀ r ∈ lW, ∃ x ∈ filter_size_band
        (dfW.filter (fun rr => decide ((2024 : Int) - 5 ≤ rr.base.deal_year))) 80 90,
      x.base.apt_seq = r.apt_seq ∧ x.base.apt_nm = r.apt_nm) :=
  leading_complex_correct dfW 5 1 1 80 90 2024 lW (by with_unfolding_all decide)

theorem wsum_shift (t : List ℚ) : ∀ k : ℚ, wsum (k + 1) t = wsum k t + sumQ t := by
  induction t with
  | nil => intro k; simp [wsum, sumQ]
  | cons y t ih =>
    intro k
    simp only [wsum, sumQ, ih (k + 1)]
    ring

theorem sumIdx_closed : ∀ n : Nat, sumIdx n = (n : ℚ) * ((n : ℚ) - 1) / 2 := by
  intro n
  induction n with
  | zero => simp [sumIdx]
  | succ m ih =>
    simp only [sumIdx, ih]
    push_cast
    ring

theorem sumIdxSq_closed : ∀ n : Nat,
    sumIdxSq n = (n : ℚ) * ((n : ℚ) - 1) * (2 * (n : ℚ) - 1) / 6 := by
  intro n
  induction n with
  | zero => simp [sumIdxSq]
  | succ m ih =>
    simp only [sumIdxSq, ih]
    push_cast
    ring

theorem sumQ_gt (t : List ℚ) (y : ℚ) (hne : t ≠ [])
    (hall : ∀ z ∈ t, y < z) : (t.length : ℚ) * y < sumQ t := by
  induction t with
  | nil => exact absurd rfl hne
  | cons z t2 ih =>
    cases t2 with
    | nil =>
      have hz := hall z (List.mem_cons_self z [])
      simp only [sumQ, List.length_cons, List.length_nil]
      push_cast
      linarith
    | cons w t3 =>
      have hz := hall z (List.mem_cons_self z _)
      have ih2 := ih (by simp) (fun u hu => hall u (List.mem_cons_of_mem z hu))
      simp only [sumQ, List.length_cons] at ih2 ⊢
      push_cast at ih2 ⊢
      linarith

theorem olsNum_pos : ∀ ys : List ℚ, 2 ≤ ys.length → ys.Pairwise (· < ·) →
    0 < (ys.length : ℚ) * wsum 0 ys - sumIdx ys.length * sumQ ys := by
  intro ys
  induction ys with
  | nil => intro h2 _; simp at h2
  | cons y t ih =>
    intro h2 hp
    rcases List.pairwise_cons.mp hp with ⟨hy, ht⟩
    cases t with
    | nil => simp at h2
    | cons z t2 =>
      cases t2 with
      | nil =>
        have hz := hy z (List.mem_cons_self z [])
        simp only [wsum, sumQ, sumIdx, List.length_cons, List.length_nil]
        push_cast
        nlinarith
      | cons w t3 =>
        have h2t : 2 ≤ (z :: w :: t3).length := by simp
        have hA := ih h2t ht
        have hS := sumQ_gt (z :: w :: t3) y (by simp) hy
        rw [sumIdx_closed] at hA ⊢
        set t := z :: w :: t3 with hteq
        set M := ((t.length : ℚ)) with hMdef
        have hM : (2 : ℚ) ≤ M := by
          rw [hMdef]; exact_mod_cast h2t
        have hlen : (((y :: t).length : ℚ)) = M + 1 := by
          rw [hMdef]; push_cast [List.length_cons]; ring
        have hw : wsum 0 (y :: t) = wsum 0 t + sumQ t := by
          show (0 : ℚ) * y + wsum (0 + 1) t = _
          rw [wsum_shift]
          ring
        have hq : sumQ (y :: t) = y + sumQ t := rfl
        rw [hlen, hw, hq]
        have hB : 0 < sumQ t - M * y := by linarith
        have hMpos : (0 : ℚ) < M := by linarith
        nlinarith [mul_pos (show (0 : ℚ) < M + 1 by linarith) hA,
          mul_pos (show (0 : ℚ) < M * (M + 1) / 2 by nlinarith) hB,
          mul_pos hMpos hMpos]

theorem olsDen_pos (n : Nat) (hn : 2 ≤ n) :
    0 < (n : ℚ) * sumIdxSq n - (sumIdx n) ^ 2 := by
  rw [sumIdx_closed, sumIdxSq_closed]
  have hN : (2 : ℚ) ≤ (n : ℚ) := by exact_mod_cast hn
  nlinarith [sq_nonneg ((n : ℚ) - 1), sq_nonneg (n : ℚ)]

theorem polyfitSlope_eq_spec (ys : List ℚ) : polyfitSlope ys = olsSlopeSpec ys := by
  cases hys : ys with
  | nil => simp [polyfitSlope, olsSlopeSpec, wsum, sumQ, sumIdx, sumIdxSq]
  | cons y t =>
    have hn : ((y :: t).length : ℚ) ≠ 0 := by
      simp only [List.length_cons]
      push_cast
      positivity
    simp only [polyfitSlope, olsSlopeSpec]
    rw [show ((y :: t).length : ℚ) * wsum 0 (y :: t) - sumIdx (y :: t).length * sumQ (y :: t) =
        ((y :: t).length : ℚ) * (wsum 0 (y :: t) -
          ((y :: t).length : ℚ) * (sumIdx (y :: t).length / ((y :: t).length : ℚ)) *
            (sumQ (y :: t) / ((y :: t).length : ℚ))) from by field_simp; ring]
    rw [show ((y :: t).length : ℚ) * sumIdxSq (y :: t).length - (sumIdx (y :: t).length) ^ 2 =
        ((y :: t).length : ℚ) * (sumIdxSq (y :: t).length -
          ((y :: t).length : ℚ) * (sumIdx (y :: t).length / ((y :: t).length : ℚ)) ^ 2) from by
      field_simp; ring]
    rw [mul_div_mul_left _ _ hn]

theorem olsSlopeSpec_pos (ys : List ℚ) (h2 : 2 ≤ ys.length)
    (hmono : ys.Pairwise (· < ·)) : 0 < olsSlopeSpec ys := by
  simp only [olsSlopeSpec]
  exact div_pos (olsNum_pos ys h2 hmono) (olsDen_pos ys.length h2)

theorem map_lastN {α β : Type} (f : α → β) (n : Nat) (l : List α) :
    (lastN n l).map f = lastN n (l.map f) := by
  simp [lastN, List.map_drop, List.length_map]

theorem trend_label_slope (df : List DRow) (h12 : 12 ≤ (monthlyAgg df).length) :
    (compute_trend df).long_trend_label =
      (if 0 < olsSlopeSpec (lastN 36 ((monthlyAgg df).map (fun r => r.median_price)))
       then "상승" else "하락") ∧
    (compute_trend df).long_slope =
      round2 (olsSlopeSpec (lastN 36 ((monthlyAgg df).map (fun r => r.median_price)))) := by
  have hne : df.isEmpty = false := by
    cases hd : df with
    | nil =>
      rw [hd] at h12
      exact absurd h12 (by decide)
    | cons a l => rfl
  have hlt : ¬((monthlyAgg df).length < 2) := by omega
  have hlast : 12 ≤ (lastN 36 (monthlyAgg df)).length := by
    rw [lastN, List.length_drop]
    omega
  rw [compute_trend]
  simp only [hne, Bool.false_eq_true, if_false, if_neg hlt, if_pos hlast]
  rw [polyfitSlope_eq_spec, map_lastN]
  exact ⟨rfl, rfl⟩

/-- C5.  When at least 12 monthly points exist, the long-trend label is
"rising" (상승) exactly when the ordinary-least-squares slope over the last
at-most-36 monthly medians (x = 0..n-1) is positive and "falling" (하락)
otherwise — a zero slope is "falling" — and the reported `long_slope` is
that OLS slope (rounded to two decimals as the source does); moreover for a
36-point monthly series with strictly increasing medians the slope is
positive and the label is "rising". -/
theorem trend_ols_classification :
    (∀ df : List DRow, 12 ≤ (monthlyAgg df).length →
      (compute_trend df).long_trend_label =
        (if 0 < olsSlopeSpec (lastN 36 ((monthlyAgg df).map (fun r => r.median_price)))
         then "상승" else "하락") ∧
      (compute_trend df).long_slope =
        round2 (olsSlopeSpec (lastN 36 ((monthlyAgg df).map (fun r => r.median_price))))) ∧
    (∀ df : List DRow, (monthlyAgg df).length = 36 →
      ((monthlyAgg df).map (fun r => r.median_price)).Pairwise (· < ·) →
      0 < olsSlopeSpec ((monthlyAgg df).map (fun r => r.median_price)) ∧
      (compute_trend df).long_trend_label = "상승") := by
  refine ⟨fun df h12 => trend_label_slope df h12, fun df h36 hmono => ?_⟩
  have h12 : 12 ≤ (monthlyAgg df).length := by omega
  have hpos : 0 < olsSlopeSpec ((monthlyAgg df).map (fun r => r.median_price)) := by
    refine olsSlopeSpec_pos _ ?_ hmono
    rw [List.length_map]
    omega
  refine ⟨hpos, ?_⟩
  have hall : lastN 36 ((monthlyAgg df).map (fun r => r.median_price)) =
      (monthlyAgg df).map (fun r => r.median_price) := by
    rw [lastN, List.length_map, h36]
    exact List.drop_zero _
  rw [(trend_label_slope df h12).1, hall, if_pos hpos]

theorem trend_ols_classification_witness :
    0 < olsSlopeSpec ((monthlyAgg df36).map (fun r => r.median_price)) ∧
    (compute_trend df36).long_trend_label = "상승" :=
  trend_ols_classification.2 df36 (by with_unfolding_all decide)
    (by with_unfolding_all decide)

/-- C4 counterexample.  On `item4` the first `floor` alias (`층`) is present
with value `""`; under the claim's first-present-alias resolution the record
would fail integer coercion and be dropped (`process_item_claim` returns
`none`), but the code's `or`-chain skips the falsy value, resolves `floor`
from the second alias and admits the row with `floor = 7`. -/
theorem alias_first_present_counterexample :
    itemGet item4 "층" = some (.vStr "") ∧ toIntR (.vStr "") = none ∧
    process_item item4 "11110" = some t4 ∧
    process_item_claim item4 "11110" = none := by
  decide

theorem chainGet_firstTruthy (item : RawItem) :
    ∀ keys : List String, firstTruthy item keys ≠ none →
      chainGet item keys = firstTruthy item keys := by
  intro keys
  induction keys with
  | nil => intro h; exact absurd rfl h
  | cons k rest ih =>
    intro h
    cases hv : itemGet item k with
    | none =>
      have hft : firstTruthy item (k :: rest) = firstTruthy item rest := by
        simp [firstTruthy, List.findSome?_cons, hv]
      cases rest with
      | nil =>
        rw [hft] at h
        exact absurd rfl h
      | cons k2 rest2 =>
        rw [hft]
        show pyOr (itemGet item k) _ = _
        rw [hv]
        exact ih (hft ▸ h)
    | some v =>
      cases htv : truthy v with
      | true =>
        have hft : firstTruthy item (k :: rest) = some v := by
          simp [firstTruthy, List.findSome?_cons, hv, htv]
        rw [hft]
        cases rest with
        | nil => exact hv
        | cons k2 rest2 =>
          show pyOr (itemGet item k) _ = _
          rw [hv]
          simp [pyOr, htv]
      | false =>
        have hft : firstTruthy item (k :: rest) = firstTruthy item rest := by
          simp [firstTruthy, List.findSome?_cons, hv, htv]
        cases rest with
        | nil =>
          rw [hft] at h
          exact absurd rfl h
        | cons k2 rest2 =>
          rw [hft]
          show pyOr (itemGet item k) _ = _
          rw [hv]
          simp only [pyOr, htv, Bool.false_eq_true, if_false]
          exact ih (hft ▸ h)

/-- C4 amended.  Alias resolution follows Python `or`: the first alias with
a present-and-truthy value wins (a present but falsy value is skipped); a
record whose date alias chains resolve to `None` is dropped silently, and a
record whose year value fails integer coercion is dropped silently. -/
theorem alias_or_semantics :
    (∀ (item : RawItem) (keys : List String), firstTruthy item keys ≠ none →
      chainGet item keys = firstTruthy item keys) ∧
    (∀ (item : RawItem) (lawd : String),
      chainGet item yearKeys = none ∨ chainGet item monthKeys = none ∨
        chainGet item dayKeys = none →
      process_item item lawd = none) ∧
    (∀ (item : RawItem) (lawd : String) (yv : RawVal),
      chainGet item yearKeys = some yv → toIntR yv = none →
      process_item item lawd = none) := by
  refine ⟨chainGet_firstTruthy, ?_, ?_⟩
  · intro item lawd h
    unfold process_item
    rcases hy : chainGet item yearKeys with _ | yv <;>
      rcases hm : chainGet item monthKeys with _ | mv <;>
      rcases hd : chainGet item dayKeys with _ | dv <;>
      simp_all
  · intro item lawd yv hy hnone
    unfold process_item
    rcases hm : chainGet item monthKeys with _ | mv <;>
      rcases hd : chainGet item dayKeys with _ | dv <;>
      simp_all

theorem alias_or_semantics_witness :
    chainGet item4 floorKeys = firstTruthy item4 floorKeys ∧
    process_item ([] : RawItem) "11110" = none ∧
    process_item itemBadYear "11110" = none :=
  ⟨alias_or_semantics.1 item4 floorKeys (by decide),
   alias_or_semantics.2.1 [] "11110" (Or.inl (by decide)),
   alias_or_semantics.2.2 itemBadYear "11110" (.vStr "abc") (by decide) (by decide)⟩

theorem process_item_inv (item : RawItem) (lawd : String) (t : Trade)
    (h : process_item item lawd = some t) :
    ∃ yv mv dv,
      chainGet item yearKeys = some yv ∧ chainGet item monthKeys = some mv ∧
      chainGet item dayKeys = some dv ∧
      toIntR yv = some t.deal_year ∧ toIntR mv = some t.deal_month ∧
      toIntR dv = some t.deal_day ∧
      parseInt (pytrim (pyRemoveCommas (strOfRaw (chainGetD item amountKeys (.vStr "0"))))) =
        some t.deal_amount ∧
      toFloatR (chainGetD item areaKeys (.vInt 0)) = some t.exclu_use_ar ∧
      toIntR (chainGetD item floorKeys (.vInt 0)) = some t.floor ∧
      toIntR (chainGetD item buildYearKeys (.vInt 0)) = some t.build_year ∧
      parseInt (decRepr t.deal_year ++ fmt02 t.deal_month) = some t.deal_ymd ∧
      t.lawd_cd = lawd ∧
      t.apt_seq = pytrim (strOfRaw (chainGetD item aptSeqKeys (.vStr "unknown"))) ∧
      t.apt_nm = pytrim (strOfRaw (chainGetD item aptNmKeys (.vStr "unknown"))) ∧
      t.umd_nm = pytrim (strOfRaw (chainGetD item umdNmKeys (.vStr ""))) ∧
      t.jibun = chainGet item jibunKeys := by
  unfold process_item at h
  split at h
  · split at h
    · split at h
      · rename_i a1 a2 a3 yv mv dv hy hm hd b1 b2 b3 b4 b5 b6 b7 y m d amt ar fl by2
          h1 h2 h3 h4 h5 h6 h7 c1 ymd hymd
        obtain rfl := Option.some.inj h
        exact ⟨yv, mv, dv, hy, hm, hd, h1, h2, h3, h4, h5, h6, h7, hymd, rfl, rfl, rfl,
          rfl, rfl⟩
      · cases h
    · cases h
  · cases h

theorem chainGetD_cases (item : RawItem) (d : RawVal) :
    ∀ keys : List String, chainGetD item keys d = d ∨
      ∃ k ∈ keys, itemGet item k = some (chainGetD item keys d) := by
  intro keys
  induction keys with
  | nil => exact Or.inl rfl
  | cons k rest ih =>
    cases hv : itemGet item k with
    | none =>
      cases rest with
      | nil => left; simp [chainGetD, chainGet, hv]
      | cons k2 rest2 =>
        have hstep : chainGetD item (k :: k2 :: rest2) d = chainGetD item (k2 :: rest2) d := by
          simp [chainGetD, chainGet, pyOr, hv]
        rw [hstep]
        rcases ih with h | ⟨k3, hk3, hk3v⟩
        · exact Or.inl h
        · exact Or.inr ⟨k3, List.mem_cons_of_mem k hk3, hk3v⟩
    | some v =>
      cases htv : truthy v with
      | false =>
        cases rest with
        | nil => left; simp [chainGetD, chainGet, hv, htv]
        | cons k2 rest2 =>
          have hstep : chainGetD item (k :: k2 :: rest2) d = chainGetD item (k2 :: rest2) d := by
            simp [chainGetD, chainGet, pyOr, hv, htv]
          rw [hstep]
          rcases ih with h | ⟨k3, hk3, hk3v⟩
          · exact Or.inl h
          · exact Or.inr ⟨k3, List.mem_cons_of_mem k hk3, hk3v⟩
      | true =>
        have hstep : chainGetD item (k :: rest) d = v := by
          cases rest with
          | nil => simp [chainGetD, chainGet, hv, htv]
          | cons k2 rest2 => simp [chainGetD, chainGet, pyOr, hv, htv]
        rw [hstep]
        exact Or.inr ⟨k, List.mem_cons_self k rest, hv⟩

/-- C9 counterexample.  A raw record carrying only the three date components
is admitted by the normalizer with `exclu_use_ar = 0` (the `or 0` default),
so not every canonical transaction has a strictly positive floor area. -/
theorem area_positive_counterexample :
    (process_items [item9] "11110").map Trade.exclu_use_ar = [0] ∧
    ¬(∀ t ∈ process_items [item9] "11110", 0 < t.exclu_use_ar) := by
  decide

/-- C9 amended.  Normalization guarantees only nonnegativity, and only
conditionally: if every present area alias value has a nonnegative float
interpretation, the canonical `exclu_use_ar` is `≥ 0`; a record with absent
or falsy area fields is admitted with area `0` rather than dropped, so
strict positivity does not hold. -/
theorem area_nonneg_conditional (item : RawItem) (lawd : String) (t : Trade)
    (h : process_item item lawd = some t)
    (hnn : ∀ k ∈ areaKeys, (itemGet item k).elim true rawNonneg = true) :
    0 ≤ t.exclu_use_ar := by
  obtain ⟨yv, mv, dv, _, _, _, _, _, _, _, har, _⟩ := process_item_inv item lawd t h
  rcases chainGetD_cases item (.vInt 0) areaKeys with hd | ⟨k, hk, hkv⟩
  · rw [hd] at har
    have : t.exclu_use_ar = ((0 : Int) : ℚ) := (Option.some.inj har).symm
    rw [this]
    norm_num
  · have := hnn k hk
    rw [hkv] at this
    simp only [Option.elim] at this
    rw [rawNonneg, har] at this
    exact of_decide_eq_true this

theorem area_nonneg_conditional_witness : 0 ≤ t6.exclu_use_ar :=
  area_nonneg_conditional item6 "11110" t6 (by decide) (by decide)

theorem isDigit_digitChar (n : Nat) (h : n < 10) : (digitChar n).isDigit = true := by
  interval_cases n <;> decide

theorem charDigit_digitChar (n : Nat) (h : n < 10) : charDigit (digitChar n) = n := by
  interval_cases n <;> decide

theorem natDigitsAux_digits : ∀ fuel n : Nat, ∀ c ∈ natDigitsAux fuel n, c.isDigit = true := by
  intro fuel
  induction fuel with
  | zero => intro n c hc; cases hc
  | succ f ih =>
    intro n c hc
    by_cases h10 : n < 10
    · simp only [natDigitsAux, if_pos h10, List.mem_singleton] at hc
      exact hc ▸ isDigit_digitChar n h10
    · simp only [natDigitsAux, if_neg h10, List.mem_append, List.mem_singleton] at hc
      rcases hc with hc | hc
      · exact ih _ c hc
      · exact hc ▸ isDigit_digitChar _ (Nat.mod_lt n (by omega))

theorem natDigits_digits (n : Nat) : ∀ c ∈ natDigits n, c.isDigit = true :=
  natDigitsAux_digits (n + 1) n

theorem natDigits_ne_nil (n : Nat) : natDigits n ≠ [] := by
  unfold natDigits natDigitsAux
  by_cases h10 : n < 10 <;> simp [h10]

theorem ofDigits_append_digit (l : List Char) (c : Char) :
    ofDigits (l ++ [c]) = 10 * ofDigits l + charDigit c := by
  simp [ofDigits, List.foldl_append]

theorem ofDigits_natDigitsAux : ∀ fuel n : Nat, n ≤ fuel →
    ofDigits (natDigitsAux fuel n) = n := by
  intro fuel
  induction fuel with
  | zero =>
    intro n h
    have : n = 0 := by omega
    subst this
    rfl
  | succ f ih =>
    intro n h
    by_cases h10 : n < 10
    · simp only [natDigitsAux, if_pos h10]
      show 10 * 0 + charDigit (digitChar n) = n
      rw [charDigit_digitChar n h10]
      omega
    · simp only [natDigitsAux, if_neg h10]
      rw [ofDigits_append_digit, ih (n / 10) (by omega),
        charDigit_digitChar (n % 10) (Nat.mod_lt n (by omega))]
      omega

theorem parseNatL_natDigits (n : Nat) : parseNatL (natDigits n) = some n := by
  have hne : (natDigits n).isEmpty = false := by
    rcases hd : natDigits n with _ | ⟨c, cs⟩
    · exact absurd hd (natDigits_ne_nil n)
    · rfl
  have hall : (natDigits n).all Char.isDigit = true :=
    List.all_eq_true.mpr (natDigits_digits n)
  rw [parseNatL, hne, hall]
  simp only [Bool.false_eq_true, if_false, if_true, Option.some.injEq]
  exact ofDigits_natDigitsAux (n + 1) n (Nat.le_succ n)

theorem dropWhile_eq_self_all {p : Char → Bool} (l : List Char)
    (h : ∀ c ∈ l, p c = false) : l.dropWhile p = l := by
  cases l with
  | nil => rfl
  | cons c cs => simp [List.dropWhile_cons, h c (List.mem_cons_self c cs)]

theorem trimL_eq_self_of (l : List Char) (h : ∀ c ∈ l, isWS c = false) : trimL l = l := by
  unfold trimL
  rw [dropWhile_eq_self_all l h,
    dropWhile_eq_self_all l.reverse (fun c hc => h c (List.mem_reverse.mp hc)),
    List.reverse_reverse]

theorem isWS_of_isDigit (c : Char) (h : c.isDigit = true) : isWS c = false := by
  cases hc : isWS c
  · rfl
  · exfalso
    simp only [isWS, Bool.or_eq_true, beq_iff_eq] at hc
    rcases hc with ((rfl | rfl) | rfl) | rfl <;> exact absurd h (by decide)

theorem decRepr_data (i : Int) : (decRepr i).data =
    if i < 0 then '-' :: natDigits i.natAbs else natDigits i.natAbs := by
  unfold decRepr
  split <;> rfl

theorem decRepr_chars (i : Int) :
    ∀ c ∈ (decRepr i).data, c.isDigit = true ∨ c = '-' := by
  intro c hc
  rw [decRepr_data] at hc
  by_cases hi : i < 0
  · rw [if_pos hi] at hc
    rcases List.mem_cons.mp hc with rfl | hc
    · exact Or.inr rfl
    · exact Or.inl (natDigits_digits _ c hc)
  · rw [if_neg hi] at hc
    exact Or.inl (natDigits_digits _ c hc)

theorem pyRemoveCommas_decRepr (i : Int) : pyRemoveCommas (decRepr i) = decRepr i := by
  unfold pyRemoveCommas
  have : ∀ c ∈ (decRepr i).data, (!(c == ',')) = true := by
    intro c hc
    rcases decRepr_chars i c hc with h | rfl
    · simp only [Bool.not_eq_eq_eq_not, Bool.not_true, beq_eq_false_iff_ne]
      intro he
      exact absurd (he ▸ h) (by decide)
    · decide
  rw [List.filter_eq_self.mpr this]

theorem trimL_decRepr (i : Int) : trimL (decRepr i).data = (decRepr i).data := by
  apply trimL_eq_self_of
  intro c hc
  rcases decRepr_chars i c hc with h | rfl
  · exact isWS_of_isDigit c h
  · decide

theorem pytrim_decRepr (i : Int) : pytrim (decRepr i) = decRepr i := by
  unfold pytrim
  rw [trimL_decRepr]

theorem parseInt_decRepr (i : Int) : parseInt (decRepr i) = some i := by
  unfold parseInt
  rw [trimL_decRepr, decRepr_data]
  by_cases hi : i < 0
  · rw [if_pos hi]
    show parseIntL ('-' :: natDigits i.natAbs) = some i
    simp only [parseIntL, if_pos rfl, parseNatL_natDigits]
    show some (-((i.natAbs : Nat) : Int)) = some i
    have he : -((i.natAbs : Nat) : Int) = i := by omega
    rw [he]
  · rw [if_neg hi]
    rcases hnd : natDigits i.natAbs with _ | ⟨c, cs⟩
    · exact absurd hnd (natDigits_ne_nil _)
    · have hcdig : c.isDigit = true :=
        natDigits_digits i.natAbs c (hnd ▸ List.mem_cons_self c cs)
      have hC1 : ¬(c = '-') := fun he => absurd (he ▸ hcdig) (by decide)
      have hC2 : ¬(c = '+') := fun he => absurd (he ▸ hcdig) (by decide)
      show parseIntL (c :: cs) = some i
      simp only [parseIntL, if_neg hC1, if_neg hC2]
      rw [← hnd, parseNatL_natDigits]
      show some (((i.natAbs : Nat) : Int)) = some i
      have he : ((i.natAbs : Nat) : Int) = i := by omega
      rw [he]

theorem dropWhile_head?_not {p : Char → Bool} : ∀ (l : List Char) (x : Char),
    (l.dropWhile p).head? = some x → p x = false := by
  intro l
  induction l with
  | nil => intro x h; cases h
  | cons c cs ih =>
    intro x h
    cases hc : p c with
    | true =>
      rw [List.dropWhile_cons, hc] at h
      exact ih x (by simpa using h)
    | false =>
      rw [List.dropWhile_cons, hc] at h
      simp only [Bool.false_eq_true, if_false, List.head?_cons, Option.some.injEq] at h
      exact h ▸ hc

theorem dropWhile_eq_self_head? {p : Char → Bool} (l : List Char)
    (h : ∀ x, l.head? = some x → p x = false) : l.dropWhile p = l := by
  cases l with
  | nil => rfl
  | cons c cs => simp [List.dropWhile_cons, h c rfl]

theorem getLast?_dropWhile {p : Char → Bool} : ∀ l : List Char,
    l.dropWhile p ≠ [] → (l.dropWhile p).getLast? = l.getLast? := by
  intro l
  induction l with
  | nil => intro h; exact absurd rfl h
  | cons c cs ih =>
    intro h
    cases hc : p c with
    | true =>
      rw [List.dropWhile_cons, hc] at h ⊢
      simp only [if_true] at h ⊢
      have hcs : cs ≠ [] := by
        intro he
        rw [he] at h
        exact absurd rfl h
      rw [ih h]
      rcases cs with _ | ⟨d, ds⟩
      · exact absurd rfl hcs
      · rfl
    | false =>
      rw [List.dropWhile_cons, hc]
      simp

theorem trimL_idem (l : List Char) : trimL (trimL l) = trimL l := by
  have h1 : (trimL l).dropWhile isWS = trimL l := by
    apply dropWhile_eq_self_head?
    intro x hx
    unfold trimL at hx
    rw [List.head?_reverse] at hx
    by_cases hB : (l.dropWhile isWS).reverse.dropWhile isWS = []
    · rw [hB] at hx; cases hx
    · rw [getLast?_dropWhile _ hB, List.getLast?_reverse] at hx
      exact dropWhile_head?_not l x hx
  have h2 : ((trimL l).reverse).dropWhile isWS = (trimL l).reverse := by
    apply dropWhile_eq_self_head?
    intro x hx
    have hrr : (trimL l).reverse = (l.dropWhile isWS).reverse.dropWhile isWS := by
      unfold trimL
      rw [List.reverse_reverse]
    rw [hrr] at hx
    exact dropWhile_head?_not _ x hx
  show (((trimL l).dropWhile isWS).reverse.dropWhile isWS).reverse = trimL l
  rw [h1, h2, List.reverse_reverse]

theorem pytrim_idem (s : String) : pytrim (pytrim s) = pytrim s := by
  unfold pytrim
  exact congrArg String.mk (trimL_idem s.data)

/-- C6.  Normalization is idempotent on valid records: re-serializing a
canonical transaction under the camel-case alias names and normalizing it
again yields the same canonical transaction (the validity hypotheses — a
nonzero date and nonempty complex identifiers — are what the spec calls a
valid record; a zero or empty component would be skipped as falsy by the
`or`-chains of a second pass). -/
theorem normalization_idempotent (item : RawItem) (lawd : String) (t : Trade)
    (h : process_item item lawd = some t)
    (hy2 : t.deal_year ≠ 0) (hm2 : t.deal_month ≠ 0) (hd2 : t.deal_day ≠ 0)
    (hs2 : t.apt_seq ≠ "") (hn2 : t.apt_nm ≠ "") :
    process_item (reserialize t) t.lawd_cd = some t := by
  obtain ⟨yv, mv, dv, hy, hm, hd, hty, htm, htd, hamt, har, hfl, hby, hymd, hlawd, hseq,
    hnm, humd, hjib⟩ := process_item_inv item lawd t h
  have hseqi : pytrim t.apt_seq = t.apt_seq := by rw [hseq]; exact pytrim_idem _
  have hnmi : pytrim t.apt_nm = t.apt_nm := by rw [hnm]; exact pytrim_idem _
  have humdi : pytrim t.umd_nm = t.umd_nm := by rw [humd]; exact pytrim_idem _
  have hbY : (t.deal_year == 0) = false := beq_eq_false_iff_ne.mpr hy2
  have hbM : (t.deal_month == 0) = false := beq_eq_false_iff_ne.mpr hm2
  have hbD : (t.deal_day == 0) = false := beq_eq_false_iff_ne.mpr hd2
  have hbS : (t.apt_seq == "") = false := beq_eq_false_iff_ne.mpr hs2
  have hbN : (t.apt_nm == "") = false := beq_eq_false_iff_ne.mpr hn2
  rcases hjb : t.jibun with _ | v
  · have hA : chainGet (reserialize t) yearKeys = some (.vInt t.deal_year) := by
      simp [reserialize, yearKeys, chainGet, itemGet, pyOr, truthy, hjb, hbY]
    have hBm : chainGet (reserialize t) monthKeys = some (.vInt t.deal_month) := by
      simp [reserialize, monthKeys, chainGet, itemGet, pyOr, truthy, hjb, hbM]
    have hCd : chainGet (reserialize t) dayKeys = some (.vInt t.deal_day) := by
      simp [reserialize, dayKeys, chainGet, itemGet, pyOr, truthy, hjb, hbD]
    have hAmt : parseInt (pytrim (pyRemoveCommas (strOfRaw
        (chainGetD (reserialize t) amountKeys (.vStr "0"))))) = some t.deal_amount := by
      by_cases hz : t.deal_amount = 0
      · have hch : chainGetD (reserialize t) amountKeys (.vStr "0") = .vStr "0" := by
          simp [reserialize, amountKeys, chainGet, chainGetD, itemGet, pyOr, truthy, hjb, hz]
        rw [hch, hz]
        decide
      · have hb : (t.deal_amount == 0) = false := beq_eq_false_iff_ne.mpr hz
        have hch : chainGetD (reserialize t) amountKeys (.vStr "0") = .vInt t.deal_amount := by
          simp [reserialize, amountKeys, chainGet, chainGetD, itemGet, pyOr, truthy, hjb, hb]
        rw [hch]
        show parseInt (pytrim (pyRemoveCommas (decRepr t.deal_amount))) = _
        rw [pyRemoveCommas_decRepr, pytrim_decRepr, parseInt_decRepr]
    have hAr : toFloatR (chainGetD (reserialize t) areaKeys (.vInt 0)) =
        some t.exclu_use_ar := by
      by_cases hz : t.exclu_use_ar = 0
      · have hch : chainGetD (reserialize t) areaKeys (.vInt 0) = .vInt 0 := by
          simp [reserialize, areaKeys, chainGet, chainGetD, itemGet, pyOr, truthy, hjb, hz]
        rw [hch, hz]
        show some (((0 : Int) : ℚ)) = some 0
        norm_num
      · have hb : (t.exclu_use_ar == 0) = false := beq_eq_false_iff_ne.mpr hz
        have hch : chainGetD (reserialize t) areaKeys (.vInt 0) =
            .vFloat t.exclu_use_ar := by
          simp [reserialize, areaKeys, chainGet, chainGetD, itemGet, pyOr, truthy, hjb, hb]
        simp only [hch, toFloatR]
    have hFl : toIntR (chainGetD (reserialize t) floorKeys (.vInt 0)) = some t.floor := by
      by_cases hz : t.floor = 0
      · have hch : chainGetD (reserialize t) floorKeys (.vInt 0) = .vInt 0 := by
          simp [reserialize, floorKeys, chainGet, chainGetD, itemGet, pyOr, truthy, hjb, hz]
        rw [hch, hz]
        rfl
      · have hb : (t.floor == 0) = false := beq_eq_false_iff_ne.mpr hz
        have hch : chainGetD (reserialize t) floorKeys (.vInt 0) = .vInt t.floor := by
          simp [reserialize, floorKeys, chainGet, chainGetD, itemGet, pyOr, truthy, hjb, hb]
        simp only [hch, toIntR]
    have hBy : toIntR (chainGetD (reserialize t) buildYearKeys (.vInt 0)) =
        some t.build_year := by
      by_cases hz : t.build_year = 0
      · have hch : chainGetD (reserialize t) buildYearKeys (.vInt 0) = .vInt 0 := by
          simp [reserialize, buildYearKeys, chainGet, chainGetD, itemGet, pyOr, truthy,
            hjb, hz]
        rw [hch, hz]
        rfl
      · have hb : (t.build_year == 0) = false := beq_eq_false_iff_ne.mpr hz
        have hch : chainGetD (reserialize t) buildYearKeys (.vInt 0) =
            .vInt t.build_year := by
          simp [reserialize, buildYearKeys, chainGet, chainGetD, itemGet, pyOr, truthy,
            hjb, hb]
        simp only [hch, toIntR]
    have hSeq : pytrim (strOfRaw (chainGetD (reserialize t) aptSeqKeys
        (.vStr "unknown"))) = t.apt_seq := by
      have hch : chainGetD (reserialize t) aptSeqKeys (.vStr "unknown") =
          .vStr t.apt_seq := by
        simp [reserialize, aptSeqKeys, chainGet, chainGetD, itemGet, pyOr, truthy, hjb, hbS]
      rw [hch]
      exact hseqi
    have hNm : pytrim (strOfRaw (chainGetD (reserialize t) aptNmKeys
        (.vStr "unknown"))) = t.apt_nm := by
      have hch : chainGetD (reserialize t) aptNmKeys (.vStr "unknown") =
          .vStr t.apt_nm := by
        simp [reserialize, aptNmKeys, chainGet, chainGetD, itemGet, pyOr, truthy, hjb, hbN]
      rw [hch]
      exact hnmi
    have hUmd : pytrim (strOfRaw (chainGetD (reserialize t) umdNmKeys (.vStr ""))) =
        t.umd_nm := by
      by_cases hz : t.umd_nm = ""
      · have hch : chainGetD (reserialize t) umdNmKeys (.vStr "") = .vStr "" := by
          simp [reserialize, umdNmKeys, chainGet, chainGetD, itemGet, pyOr, truthy, hjb, hz]
        rw [hch, hz]
        decide
      · have hb : (t.umd_nm == "") = false := beq_eq_false_iff_ne.mpr hz
        have hch : chainGetD (reserialize t) umdNmKeys (.vStr "") = .vStr t.umd_nm := by
          simp [reserialize, umdNmKeys, chainGet, chainGetD, itemGet, pyOr, truthy, hjb, hb]
        rw [hch]
        exact humdi
    have hJib : chainGet (reserialize t) jibunKeys = t.jibun := by
      simp [reserialize, jibunKeys, chainGet, itemGet, pyOr, truthy, hjb]
    simp only [process_item, hA, hBm, hCd, hAmt, hAr, hFl, hBy, hSeq, hNm, hUmd, hJib]
    simp only [toIntR, hymd, Option.some.injEq]
  · have hA : chainGet (reserialize t) yearKeys = some (.vInt t.deal_year) := by
      simp [reserialize, yearKeys, chainGet, itemGet, pyOr, truthy, hjb, hbY]
    have hBm : chainGet (reserialize t) monthKeys = some (.vInt t.deal_month) := by
      simp [reserialize, monthKeys, chainGet, itemGet, pyOr, truthy, hjb, hbM]
    have hCd : chainGet (reserialize t) dayKeys = some (.vInt t.deal_day) := by
      simp [reserialize, dayKeys, chainGet, itemGet, pyOr, truthy, hjb, hbD]
    have hAmt : parseInt (pytrim (pyRemoveCommas (strOfRaw
        (chainGetD (reserialize t) amountKeys (.vStr "0"))))) = some t.deal_amount := by
      by_cases hz : t.deal_amount = 0
      · have hch : chainGetD (reserialize t) amountKeys (.vStr "0") = .vStr "0" := by
          simp [reserialize, amountKeys, chainGet, chainGetD, itemGet, pyOr, truthy, hjb, hz]
        rw [hch, hz]
        decide
      · have hb : (t.deal_amount == 0) = false := beq_eq_false_iff_ne.mpr hz
        have hch : chainGetD (reserialize t) amountKeys (.vStr "0") = .vInt t.deal_amount := by
          simp [reserialize, amountKeys, chainGet, chainGetD, itemGet, pyOr, truthy, hjb, hb]
        rw [hch]
        show parseInt (pytrim (pyRemoveCommas (decRepr t.deal_amount))) = _
        rw [pyRemoveCommas_decRepr, pytrim_decRepr, parseInt_decRepr]
    have hAr : toFloatR (chainGetD (reserialize t) areaKeys (.vInt 0)) =
        some t.exclu_use_ar := by
      by_cases hz : t.exclu_use_ar = 0
      · have hch : chainGetD (reserialize t) areaKeys (.vInt 0) = .vInt 0 := by
          simp [reserialize, areaKeys, chainGet, chainGetD, itemGet, pyOr, truthy, hjb, hz]
        rw [hch, hz]
        show some (((0 : Int) : ℚ)) = some 0
        norm_num
      · have hb : (t.exclu_use_ar == 0) = false := beq_eq_false_iff_ne.mpr hz
        have hch : chainGetD (reserialize t) areaKeys (.vInt 0) =
            .vFloat t.exclu_use_ar := by
          simp [reserialize, areaKeys, chainGet, chainGetD, itemGet, pyOr, truthy, hjb, hb]
        simp only [hch, toFloatR]
    have hFl : toIntR (chainGetD (reserialize t) floorKeys (.vInt 0)) = some t.floor := by
      by_cases hz : t.floor = 0
      · have hch : chainGetD (reserialize t) floorKeys (.vInt 0) = .vInt 0 := by
          simp [reserialize, floorKeys, chainGet, chainGetD, itemGet, pyOr, truthy, hjb, hz]
        rw [hch, hz]
        rfl
      · have hb : (t.floor == 0) = false := beq_eq_false_iff_ne.mpr hz
        have hch : chainGetD (reserialize t) floorKeys (.vInt 0) = .vInt t.floor := by
          simp [reserialize, floorKeys, chainGet, chainGetD, itemGet, pyOr, truthy, hjb, hb]
        simp only [hch, toIntR]
    have hBy : toIntR (chainGetD (reserialize t) buildYearKeys (.vInt 0)) =
        some t.build_year := by
      by_cases hz : t.build_year = 0
      · have hch : chainGetD (reserialize t) buildYearKeys (.vInt 0) = .vInt 0 := by
          simp [reserialize, buildYearKeys, chainGet, chainGetD, itemGet, pyOr, truthy,
            hjb, hz]
        rw [hch, hz]
        rfl
      · have hb : (t.build_year == 0) = false := beq_eq_false_iff_ne.mpr hz
        have hch : chainGetD (reserialize t) buildYearKeys (.vInt 0) =
            .vInt t.build_year := by
          simp [reserialize, buildYearKeys, chainGet, chainGetD, itemGet, pyOr, truthy,
            hjb, hb]
        simp only [hch, toIntR]
    have hSeq : pytrim (strOfRaw (chainGetD (reserialize t) aptSeqKeys
        (.vStr "unknown"))) = t.apt_seq := by
      have hch : chainGetD (reserialize t) aptSeqKeys (.vStr "unknown") =
          .vStr t.apt_seq := by
        simp [reserialize, aptSeqKeys, chainGet, chainGetD, itemGet, pyOr, truthy, hjb, hbS]
      rw [hch]
      exact hseqi
    have hNm : pytrim (strOfRaw (chainGetD (reserialize t) aptNmKeys
        (.vStr "unknown"))) = t.apt_nm := by
      have hch : chainGetD (reserialize t) aptNmKeys (.vStr "unknown") =
          .vStr t.apt_nm := by
        simp [reserialize, aptNmKeys, chainGet, chainGetD, itemGet, pyOr, truthy, hjb, hbN]
      rw [hch]
      exact hnmi
    have hUmd : pytrim (strOfRaw (chainGetD (reserialize t) umdNmKeys (.vStr ""))) =
        t.umd_nm := by
      by_cases hz : t.umd_nm = ""
      · have hch : chainGetD (reserialize t) umdNmKeys (.vStr "") = .vStr "" := by
          simp [reserialize, umdNmKeys, chainGet, chainGetD, itemGet, pyOr, truthy, hjb, hz]
        rw [hch, hz]
        decide
      · have hb : (t.umd_nm == "") = false := beq_eq_false_iff_ne.mpr hz
        have hch : chainGetD (reserialize t) umdNmKeys (.vStr "") = .vStr t.umd_nm := by
          simp [reserialize, umdNmKeys, chainGet, chainGetD, itemGet, pyOr, truthy, hjb, hb]
        rw [hch]
        exact humdi
    have hJib : chainGet (reserialize t) jibunKeys = t.jibun := by
      simp [reserialize, jibunKeys, chainGet, itemGet, pyOr, truthy, hjb]
    simp only [process_item, hA, hBm, hCd, hAmt, hAr, hFl, hBy, hSeq, hNm, hUmd, hJib]
    simp only [toIntR, hymd, Option.some.injEq]

theorem normalization_idempotent_witness :
    process_item (reserialize t6) t6.lawd_cd = some t6 :=
  normalization_idempotent item6 "11110" t6 (by decide) (by decide) (by decide)
    (by decide) (by decide) (by decide)
